import Mathlib

/-!
Verification of the gomicro pull-iterator and Stream/Finisher pipeline.

This file is a shallow embedding, translated from the Go sources, of:
* the buffered pull iterator `iter.Iter` (Next / Value / Unread protocol,
  LIFO push-back buffer, sticky exhaustion),
* the partitioning operations `Iter.SplitIntoRows` / `Iter.SplitIntoColumns`,
* the `Stream` / `Finisher` transform pipeline with its composition rules and
  the `doParallel` partition-execute-flatten algorithm,
* the sorting finishers, including the Go standard library `sort.Slice`
  algorithm they delegate to.

Panics in the Go code are modelled with `Except String`, machine values with
`Nat`/`Int`, and the untyped `interface{}` element type with a type
parameter `V`.
-/

namespace GoMicro

/-- Error constant from the source (iter package). -/
def ErrValueExhaustedIter : String := "Iter.Value called on exhausted iterator"

/-- Error constant from the source (iter package). -/
def ErrValueNextFirst : String := "Iter.Next has to be called before iter.Value"

/-- Error constant from the source (iter package). -/
def ErrUnreadExhaustedIter : String := "Iter.Unread called on exhausted iterator"

/-- Error constant from the source (iter package). -/
def ErrColsGreaterThanZero : String := "cols must be > 0"

/-- Error constant from the source (iter package). -/
def ErrRowsGreaterThanZero : String := "rows must be > 0"

/-- State of a gomicro `iter.Iter`.

The Go struct holds a producing closure `iter func() (interface{}, bool)`;
here the closure is modelled as an explicit producer state of type `σ`
together with a step function `σ → Option (V × σ)` that is passed to each
operation (`some (v, s')` models a `(v, true)` return, `none` models
`(invalid, false)`).  `src = none` models `it.iter == nil`, the sticky
exhausted state.  The cached `value interface{}` field starts as Go `nil`,
modelled by `Option V`.  The Go push-back `buffer` slice appends at the end
and pops its last element; the list here keeps that LIFO stack with its top
at the list head (list head = end of the Go slice). -/
structure Iter (σ : Type u) (V : Type v) where
  src : Option σ
  nextCalled : Bool
  value : Option V
  buffer : List V

/-- NewIter from the source: fresh iterator over a producer state. -/
def Iter.NewIter (s : σ) : Iter σ V :=
  { src := some s, nextCalled := false, value := none, buffer := [] }

/-- Producer for a fixed value sequence (models `iter.Of(items...)` /
`ArraySliceIterFunc`): emits the list elements in order, then reports
completion. -/
def listStep : List V → Option (V × List V)
  | [] => none
  | v :: vs => some (v, vs)

/-- Iter.Next from the source: false if already exhausted; true if Next was
already called without an intervening Value; otherwise consult the push-back
buffer before the producing function; on producer completion drop the
producer (sticky exhaustion) and return false. -/
def Iter.Next (step : σ → Option (V × σ)) (it : Iter σ V) : Bool × Iter σ V :=
  match it.src with
  | none => (false, it)
  | some s =>
    if it.nextCalled then
      (true, it)
    else
      match it.buffer with
      | b :: rest =>
        (true, { it with nextCalled := true, value := some b, buffer := rest })
      | [] =>
        match step s with
        | some (v, s') =>
          (true, { it with src := some s', nextCalled := true, value := some v })
        | none =>
          (false, { it with src := none })

/-- Iter.Value from the source: the error results model the two panics
(exhausted iterator / Next not called first); on success the "advanced" flag
is cleared and the cached value returned.  The state paired with an error is
the unchanged receiver, since a Go panic happens before any mutation. -/
def Iter.Value (it : Iter σ V) : Except String (Option V) × Iter σ V :=
  match it.src with
  | none => (.error ErrValueExhaustedIter, it)
  | some _ =>
    if it.nextCalled then
      (.ok it.value, { it with nextCalled := false })
    else
      (.error ErrValueNextFirst, it)

/-- Iter.Unread from the source: panics (error) on an exhausted iterator,
otherwise pushes the value on the LIFO buffer and clears the "advanced"
flag. -/
def Iter.Unread (it : Iter σ V) (val : V) : Except String Unit × Iter σ V :=
  match it.src with
  | none => (.error ErrUnreadExhaustedIter, it)
  | some _ => (.ok (), { it with buffer := val :: it.buffer, nextCalled := false })

/-- Iter.NextValue from the source: `it.Next()` then `it.Value()`. -/
def Iter.NextValue (step : σ → Option (V × σ)) (it : Iter σ V) :
    Except String (Option V) × Iter σ V :=
  ((it.Next step).2).Value

/-- One client operation of the iterator protocol. -/
inductive IterOp (V : Type v) where
  | next : IterOp V
  | value : IterOp V
  | unread : V → IterOp V
deriving DecidableEq

/-- State after one protocol operation (results discarded). -/
def Iter.applyOp (step : σ → Option (V × σ)) (it : Iter σ V) : IterOp V → Iter σ V
  | .next => (it.Next step).2
  | .value => (it.Value).2
  | .unread v => (it.Unread v).2

/-- State after a sequence of protocol operations. -/
def Iter.runOps (step : σ → Option (V × σ)) : Iter σ V → List (IterOp V) → Iter σ V
  | it, [] => it
  | it, op :: ops => Iter.runOps step (it.applyOp step op) ops

/-- Values the producing function can emit within `k` calls from state `s`. -/
def produceN (step : σ → Option (V × σ)) : σ → Nat → List V
  | _, 0 => []
  | s, k + 1 =>
    match step s with
    | none => []
    | some (v, s') => v :: produceN step s' k

/-- The values returned by the successful Value calls along a run. -/
def Iter.runOuts (step : σ → Option (V × σ)) : Iter σ V → List (IterOp V) → List (Option V)
  | _, [] => []
  | it, .next :: ops => Iter.runOuts step (it.Next step).2 ops
  | it, .value :: ops =>
    (match (it.Value).1 with
     | .ok v => [v]
     | .error _ => []) ++ Iter.runOuts step (it.Value).2 ops
  | it, .unread v :: ops => Iter.runOuts step (it.Unread v).2 ops

/-- An iterator state in which the value `v0` occurs in none of the places a
future read could draw from: the cached slot (when a read is pending), the
push-back buffer, and everything the producer can still emit. -/
abbrev Iter.AvoidsVal (step : σ → Option (V × σ)) (v0 : V) (it : Iter σ V) : Prop :=
  (it.nextCalled = true → it.value ≠ some v0) ∧
  v0 ∉ it.buffer ∧
  (∀ s, it.src = some s → ∀ k, v0 ∉ produceN step s k)

/-!
## Partitioner (iter package)

`SplitIntoRows` / `SplitIntoColumns` fully drain the iterator; the drained
value sequence is represented here by the list of values the iterator yields
in order.
-/

/-- Core loop of Iter.SplitIntoRows: fill a row left to right with `c + 1`
items (the `cols` of the source; the wrapper maps `cols = c + 1`), flush it,
continue with the remaining items; a final short row is kept.  The loop is
driven by a fuel counter so that it is structurally recursive; each
iteration consumes at least one item, so the fuel supplied by `chunkRows`
(one more than the item count) never runs out. -/
def chunkRowsLoop (c : Nat) : Nat → List V → List (List V)
  | 0, _ => []
  | _ + 1, [] => []
  | fuel + 1, x :: xs => (x :: xs.take c) :: chunkRowsLoop c fuel (xs.drop c)

/-- Row-major split of the drained values into rows of `c + 1` items. -/
def chunkRows (c : Nat) (values : List V) : List (List V) :=
  chunkRowsLoop c (values.length + 1) values

/-- Iter.SplitIntoRows from the source: panics (error) if `cols = 0`,
otherwise splits the drained values into rows of at most `cols` items,
filling each row left to right. -/
def Iter.SplitIntoRows (cols : Nat) (values : List V) : Except String (List (List V)) :=
  match cols with
  | 0 => .error ErrColsGreaterThanZero
  | c + 1 => .ok (chunkRows c values)

/-- Core loop of Iter.SplitIntoColumns: build `numRows` contiguous
partitions; a partition receives `numItems + 1` values while remainder
`rmdr` is positive (decrementing it), else `numItems`. -/
def colsLoop : Nat → Nat → Nat → List V → List (List V)
  | 0, _, _, _ => []
  | numRows + 1, numItems, rmdr, values =>
    let k := if 0 < rmdr then numItems + 1 else numItems
    values.take k :: colsLoop numRows numItems (rmdr - 1) (values.drop k)

/-- Iter.SplitIntoColumns from the source: panics (error) if `rows = 0`;
otherwise computes `numItems = n / rows`, `rmdr = n % rows` over the drained
values (length `n`); if `n < rows` it degrades to `n` rows of one item each
(`numItems = 1`, `rmdr = 0`); then emits contiguous subslices. -/
def Iter.SplitIntoColumns (rows : Nat) (values : List V) : Except String (List (List V)) :=
  if rows = 0 then .error ErrRowsGreaterThanZero
  else
    let numValues := values.length
    if numValues < rows then
      .ok (colsLoop numValues 1 0 values)
    else
      .ok (colsLoop rows (numValues / rows) (numValues % rows) values)

/-!
## Stream and Finisher (stream package)

A Stream transform `func(*iter.Iter) *iter.Iter` pulls elements of the
upstream iterator in order and emits its own elements in order; at the level
of the produced value sequences it is a function `List V → List V`.  A
Finisher transform generator `func() func(*iter.Iter) *iter.Iter` allocates
fresh internal state (e.g. the `alreadyRead` set of Distinct) each time it
is invoked; it is modelled as `Unit → (List V → List V)` where the returned
function starts from that fresh state.
-/

/-- composeTransforms from the source: `f2(f1(x))`, degenerating to `f2`
when `f1` is nil (the `f2 == nil` panic cannot arise here: every call site
passes a function value). -/
def composeTransforms (f1 : Option (List V → List V)) (f2 : List V → List V) :
    List V → List V :=
  match f1 with
  | none => f2
  | some g => fun it => f2 (g it)

/-- composeGenerators from the source: a generator that invokes both
generators anew on every invocation, yielding `f2()(f1()(x))`; degenerates
to `f2` when `f1` is nil. -/
def composeGenerators (f1 : Option (Unit → List V → List V))
    (f2 : Unit → List V → List V) : Unit → List V → List V :=
  match f1 with
  | none => f2
  | some g => fun _ => fun it => f2 () (g () it)

/-- Stream from the source: holds one optional composed transform. -/
structure Stream (V : Type v) where
  transform : Option (List V → List V)

/-- New from the source: the zero value Stream. -/
def Stream.New : Stream V := { transform := none }

/-- Stream.Transform from the source. -/
def Stream.Transform (s : Stream V) (t : List V → List V) : Stream V :=
  { transform := some (composeTransforms s.transform t) }

/-- Element loop of Stream.Filter: keep the values passing the predicate, in
order. -/
def filterGo (f : V → Bool) : List V → List V
  | [] => []
  | x :: xs => if f x then x :: filterGo f xs else filterGo f xs

/-- Element loop of Stream.Map: map each value, in order.  (The Go mapper
may change the dynamic type inside `interface{}`; the claims only need an
endo-map on `V`.) -/
def mapGo (f : V → V) : List V → List V
  | [] => []
  | x :: xs => f x :: mapGo f xs

/-- Stream.Filter from the source. -/
def Stream.Filter (s : Stream V) (f : V → Bool) : Stream V :=
  s.Transform (filterGo f)

/-- Stream.Map from the source. -/
def Stream.Map (s : Stream V) (f : V → V) : Stream V :=
  s.Transform (mapGo f)

/-- Stream.Iter from the source: apply the composed transform, if any, to
the source. -/
def Stream.Iter (s : Stream V) (source : List V) : List V :=
  match s.transform with
  | none => source
  | some t => t source

/-- ParallelFlags from the source. -/
inductive ParallelFlags where
  | NumberOfGoroutines : ParallelFlags
  | NumberOfItemsPerGoroutine : ParallelFlags
deriving DecidableEq

/-- DefaultNumberOfParallelItems from the source. -/
def DefaultNumberOfParallelItems : Nat := 50

/-- ParallelConfig from the source. -/
structure ParallelConfig where
  NumberOfItems : Nat
  Flags : ParallelFlags

/-- Finisher from the source: owning Stream plus optional composed transform
generator.  (The `finite` field of the struct is never read by the modelled
operations.) -/
structure Finisher (V : Type v) where
  stream : Stream V
  generator : Option (Unit → List V → List V)

/-- Stream.AndThen from the source. -/
def Stream.AndThen (s : Stream V) : Finisher V :=
  { stream := s, generator := none }

/-- Finisher.Transform from the source. -/
def Finisher.Transform (fin : Finisher V) (g : Unit → List V → List V) : Finisher V :=
  { fin with generator := some (composeGenerators fin.generator g) }

/-- Generated transform of Finisher.Distinct: the generator allocates a
fresh empty `alreadyRead` set per invocation (here the `seen` accumulator,
passed as `[]` at each generator invocation); the predicate keeps the first
occurrence of each element, in encounter order. -/
def distinctSeen [DecidableEq V] (seen : List V) : List V → List V
  | [] => []
  | x :: xs => if x ∈ seen then distinctSeen seen xs else x :: distinctSeen (x :: seen) xs

/-- Finisher.Distinct from the source: composes a generator whose generated
filter starts from a fresh empty seen set on every invocation. -/
def Finisher.Distinct [DecidableEq V] (fin : Finisher V) : Finisher V :=
  fin.Transform (fun _ => distinctSeen [])

/-- Skip loop of the generated transform of Finisher.Skip: consume `n`
elements; if the upstream runs out first the generated iterator reports
exhaustion (`none`, yielding an empty result downstream). -/
def skipLoop : Nat → List V → Option (List V)
  | 0, l => some l
  | _ + 1, [] => none
  | n + 1, _ :: xs => skipLoop n xs

/-- Generated transform of Finisher.Skip (the one-shot `skipped` flag is
fresh per generator invocation, so each terminal call skips once). -/
def skipGo (n : Nat) (l : List V) : List V :=
  match skipLoop n l with
  | none => []
  | some rest => rest

/-- Finisher.Skip from the source.  (Go takes `n int`; a negative `n` skips
nothing, which no claim exercises, so `n : Nat` here.) -/
def Finisher.Skip (fin : Finisher V) (n : Nat) : Finisher V :=
  fin.Transform (fun _ => skipGo n)

/-- Generated transform of Finisher.Limit: emit elements while the fresh
`elementsRead` counter is below `n`, then stop. -/
def limitGo : Nat → List V → List V
  | 0, _ => []
  | _ + 1, [] => []
  | n + 1, x :: xs => x :: limitGo n xs

/-- Finisher.Limit from the source. -/
def Finisher.Limit (fin : Finisher V) (n : Nat) : Finisher V :=
  fin.Transform (fun _ => limitGo n)

/-!
## sort.Slice (Go standard library)

`Finisher.Sort` delegates to `sort.Slice`, which is not repository code;
the definitions below embed the classic Go standard library implementation
(the `quickSort` of the Go releases contemporary with this repository,
before the 1.19 pdqsort rewrite): intro-sort with a depth limit, a
median-of-three (or ninther) pivot, and — for ranges of at most 12
elements — one ShellSort pass with gap 6 followed by insertion sort.
Element accesses are all in bounds during a real run; `lget` totalises them
with a default, and an out-of-range `lswap` is the identity (Go would
panic on a slice index error, which never occurs here).
-/

/-- Read slot `i` of the slice being sorted. -/
def lget [Inhabited V] (l : List V) (i : Nat) : V := l.getD i default

/-- `data.Swap(i, j)` on the slice being sorted. -/
def lswap [Inhabited V] (l : List V) (i j : Nat) : List V :=
  if i < l.length ∧ j < l.length then (l.set i (lget l j)).set j (lget l i) else l

/-- Inner loop of the stdlib insertionSort: move element `j` left while it
is less than its left neighbour, stopping at `a` (at `j = 0` the Go guard
`j > a` is false, so the loop stops). -/
def insertInner [Inhabited V] (less : V → V → Bool) (a : Nat) : Nat → List V → List V
  | 0, l => l
  | j + 1, l =>
    if a < j + 1 && less (lget l (j + 1)) (lget l j) then
      insertInner less a j (lswap l (j + 1) j)
    else l

/-- Outer loop of the stdlib insertionSort over `i = a+1, ..., b-1`, driven
by a fuel counter (the `i < b` guard is retained, so any fuel of at least
`b - i` gives the exact loop; callers pass more). -/
def insertOuter [Inhabited V] (less : V → V → Bool) (a : Nat) :
    Nat → Nat → Nat → List V → List V
  | 0, _, _, l => l
  | fuel + 1, i, b, l =>
    if i < b then insertOuter less a fuel (i + 1) b (insertInner less a i l) else l

/-- insertionSort from the stdlib sort package. -/
def insertionSortGo [Inhabited V] (less : V → V → Bool) (l : List V) (a b : Nat) : List V :=
  insertOuter less a (b + 1) (a + 1) b l

/-- siftDown from the stdlib sort package, driven by a fuel counter (the
loop advances `root` past `2*root+1 ≥ root+1` while `root < hi`, so any
fuel of at least `hi + 1` gives the exact loop).  The stdlib picks
`child := 2*root + 1`, bumps it to the right sibling when that one exists
and is larger, returns if the root is not less than the chosen child, and
otherwise swaps and continues from the child; the child selection is
inlined into the two branches here. -/
def siftDown [Inhabited V] (less : V → V → Bool) :
    Nat → List V → Nat → Nat → Nat → List V
  | 0, l, _, _, _ => l
  | fuel + 1, l, root, hi, first =>
    if 2 * root + 1 < hi then
      if 2 * root + 2 < hi && less (lget l (first + (2 * root + 1))) (lget l (first + (2 * root + 2))) then
        if less (lget l (first + root)) (lget l (first + (2 * root + 2))) then
          siftDown less fuel (lswap l (first + root) (first + (2 * root + 2)))
            (2 * root + 2) hi first
        else l
      else
        if less (lget l (first + root)) (lget l (first + (2 * root + 1))) then
          siftDown less fuel (lswap l (first + root) (first + (2 * root + 1)))
            (2 * root + 1) hi first
        else l
    else l

/-- Heap-building loop of the stdlib heapSort: `siftDown` for
`i = (hi-1)/2, ..., 0`. -/
def heapBuildLoop [Inhabited V] (less : V → V → Bool) :
    List V → Nat → Nat → Nat → List V
  | l, 0, hi, first => siftDown less (hi + 1) l 0 hi first
  | l, i + 1, hi, first =>
    heapBuildLoop less (siftDown less (hi + 1) l (i + 1) hi first) i hi first

/-- Pop loop of the stdlib heapSort: for `i = hi-1, ..., 0`, swap the top to
slot `i` and restore the heap on the prefix `[0, i)`. -/
def heapPopLoop [Inhabited V] (less : V → V → Bool) :
    List V → Nat → Nat → List V
  | l, 0, first => siftDown less 1 (lswap l first (first + 0)) 0 0 first
  | l, i + 1, first =>
    heapPopLoop less
      (siftDown less (i + 2) (lswap l first (first + (i + 1))) 0 (i + 1) first) i first

/-- heapSort from the stdlib sort package (`first = a`, `lo = 0`,
`hi = b - a`; the pop loop does not run when the range is empty). -/
def heapSortGo [Inhabited V] (less : V → V → Bool) (l : List V) (a b : Nat) : List V :=
  let hi := b - a
  let l1 := heapBuildLoop less l ((hi - 1) / 2) hi a
  if hi = 0 then l1 else heapPopLoop less l1 (hi - 1) a

/-- medianOfThree from the stdlib sort package. -/
def medianOfThree [Inhabited V] (less : V → V → Bool) (l : List V) (m1 m0 m2 : Nat) :
    List V :=
  let l1 := if less (lget l m1) (lget l m0) then lswap l m1 m0 else l
  if less (lget l1 m2) (lget l1 m1) then
    let l2 := lswap l1 m2 m1
    if less (lget l2 m1) (lget l2 m0) then lswap l2 m1 m0 else l2
  else l1

/-- doPivot first loop: advance `a` while `a < c` and `data[a] < pivot`
(fuel-driven, with the guard retained; `a` advances toward `c ≤ hi`, so the
fuel `hi + 1` passed by `doPivot` gives the exact loop). -/
def dpLoop1 [Inhabited V] (less : V → V → Bool) (l : List V) (pivot : Nat) :
    Nat → Nat → Nat → Nat
  | 0, a, _ => a
  | fuel + 1, a, c =>
    if a < c && less (lget l a) (lget l pivot) then dpLoop1 less l pivot fuel (a + 1) c
    else a

/-- doPivot partition loop, `b` side: advance while `data[b] <= pivot`
(fuel-driven, same convention as `dpLoop1`). -/
def dpB [Inhabited V] (less : V → V → Bool) (l : List V) (pivot : Nat) :
    Nat → Nat → Nat → Nat
  | 0, b, _ => b
  | fuel + 1, b, c =>
    if b < c && !less (lget l pivot) (lget l b) then dpB less l pivot fuel (b + 1) c
    else b

/-- doPivot partition loop, `c` side: retreat while `data[c-1] > pivot`
(fuel-driven, same convention as `dpLoop1`). -/
def dpC [Inhabited V] (less : V → V → Bool) (l : List V) (pivot : Nat) :
    Nat → Nat → Nat → Nat
  | 0, _, c => c
  | fuel + 1, b, c =>
    if b < c && less (lget l pivot) (lget l (c - 1)) then dpC less l pivot fuel b (c - 1)
    else c

/-- doPivot main partition loop: run both sides, stop when the cursors meet,
otherwise swap `b` and `c-1` and continue.  Each iteration shrinks `c - b`
by at least two, so the fuel supplied by `doPivot` (more than the range
size) never runs out; the fuel-exhausted branch is unreachable. -/
def dpMain [Inhabited V] (less : V → V → Bool) (pivot : Nat) :
    Nat → List V → Nat → Nat → List V × Nat × Nat
  | 0, l, b, c => (l, b, c)
  | fuel + 1, l, b, c =>
    let b' := dpB less l pivot (c + 1) b c
    let c' := dpC less l pivot (c + 1) b' c
    if b' ≥ c' then (l, b', c')
    else dpMain less pivot fuel (lswap l b' (c' - 1)) (b' + 1) (c' - 1)

/-- doPivot duplicate-protection loop, `b` side: retreat while
`data[b-1] == pivot` (fuel-driven, same convention as `dpLoop1`). -/
def prB [Inhabited V] (less : V → V → Bool) (l : List V) (pivot : Nat) :
    Nat → Nat → Nat → Nat
  | 0, _, b => b
  | fuel + 1, a, b =>
    if a < b && !less (lget l (b - 1)) (lget l pivot) then prB less l pivot fuel a (b - 1)
    else b

/-- doPivot duplicate-protection loop, `a` side: advance while
`data[a] < pivot` (fuel-driven, same convention as `dpLoop1`). -/
def prA [Inhabited V] (less : V → V → Bool) (l : List V) (pivot : Nat) :
    Nat → Nat → Nat → Nat
  | 0, a, _ => a
  | fuel + 1, a, b =>
    if a < b && less (lget l a) (lget l pivot) then prA less l pivot fuel (a + 1) b
    else a

/-- doPivot duplicate-protection main loop (same fuel reasoning as
`dpMain`). -/
def prMain [Inhabited V] (less : V → V → Bool) (pivot : Nat) :
    Nat → List V → Nat → Nat → List V × Nat
  | 0, l, _, b => (l, b)
  | fuel + 1, l, a, b =>
    let b' := prB less l pivot (b + 1) a b
    let a' := prA less l pivot (b' + 1) a b'
    if a' ≥ b' then (l, b')
    else prMain less pivot fuel (lswap l a' (b' - 1)) (a' + 1) (b' - 1)

/-- Pivot-candidate preparation of doPivot: Tukey's ninther (three medians
of three medians) for ranges beyond 40 elements, else the slice as is. -/
def dpNinther [Inhabited V] (less : V → V → Bool) (l : List V) (lo hi m : Nat) : List V :=
  if hi - lo > 40 then
    let s := (hi - lo) / 8
    medianOfThree less
      (medianOfThree less (medianOfThree less l lo (lo + s) (lo + 2 * s))
        m (m - s) (m + s))
      (hi - 1) (hi - 1 - s) (hi - 1 - 2 * s)
  else l

/-- Duplicate-detection section of doPivot: decide whether to run the
duplicate-protection pass, probing `hi-1`, `b-1` and `m` for equality with
the pivot and adjusting `b`/`c` accordingly; yields the adjusted slice, `b`,
`c` and the protect flag. -/
def dpDups [Inhabited V] (less : V → V → Bool) (l2 : List V) (lo hi m b c : Nat) :
    List V × Nat × Nat × Bool :=
  let pivot := lo
  let protect1 := decide (hi - c < 5)
  if !protect1 && decide (hi - c < (hi - lo) / 4) then
    match
      (if !less (lget l2 pivot) (lget l2 (hi - 1)) then (lswap l2 c (hi - 1), c + 1, 1)
       else (l2, c, 0)) with
    | (l2a, cD, dups1) =>
      match
        (if !less (lget l2a (b - 1)) (lget l2a pivot) then (b - 1, dups1 + 1)
         else (b, dups1)) with
      | (b3, dups2) =>
        match
          (if !less (lget l2a m) (lget l2a pivot) then
            (lswap l2a m (b3 - 1), b3 - 1, dups2 + 1)
           else (l2a, b3, dups2)) with
        | (l2b, bD, dups3) => (l2b, bD, cD, decide (dups3 > 1))
  else (l2, b, c, protect1)

/-- doPivot from the stdlib sort package: choose a median-of-three (ninther
beyond 40 elements) pivot at `lo`, partition `[lo+1, hi)` around it, run the
duplicate-protection pass when warranted, swap the pivot into the middle
and return `(b-1, c)`. -/
def doPivot [Inhabited V] (less : V → V → Bool) (l : List V) (lo hi : Nat) :
    List V × Nat × Nat :=
  let m := (lo + hi) / 2
  let l1 := medianOfThree less (dpNinther less l lo hi m) lo m (hi - 1)
  let pivot := lo
  let a := dpLoop1 less l1 pivot (hi + 1) (lo + 1) (hi - 1)
  -- P = (l2, b, c) after the partition loops
  let P := dpMain less pivot (hi + 1) l1 a (hi - 1)
  -- D = (l3, b, c, protect) after the duplicate probes
  let D := dpDups less P.1 lo hi m P.2.1 P.2.2
  -- Q = (l4, b) after the optional duplicate-protection pass
  let Q := if D.2.2.2 then prMain less pivot (hi + 1) D.1 a D.2.1 else (D.1, D.2.1)
  (lswap Q.1 pivot (Q.2 - 1), Q.2 - 1, D.2.2.1)

/-- Loop of `maxDepth` from the stdlib sort package: count the bits of `n`
by halving while positive (fuel-driven; halving reaches 0 within `n` steps,
so the fuel `n + 1` passed by `goMaxDepth` gives the exact loop). -/
def depthLoop : Nat → Nat → Nat
  | 0, _ => 0
  | fuel + 1, i => if i = 0 then 0 else depthLoop fuel (i / 2) + 1

/-- maxDepth from the stdlib sort package: `2 * bitlength n`, the depth at
which quickSort switches to heapSort. -/
def goMaxDepth (n : Nat) : Nat := depthLoop (n + 1) n * 2

/-- One ShellSort pass with gap 6 over `[a+6, b)` (the stdlib runs it
before insertion sort on ranges of at most 12 elements; fuel-driven with
the `i < b` guard retained, callers pass fuel at least `b - i`). -/
def shellLoop [Inhabited V] (less : V → V → Bool) : Nat → List V → Nat → Nat → List V
  | 0, l, _, _ => l
  | fuel + 1, l, i, b =>
    if i < b then
      shellLoop less fuel
        (if less (lget l i) (lget l (i - 6)) then lswap l i (i - 6) else l) (i + 1) b
    else l

/-- quickSort from the stdlib sort package.  The `for b-a > 12` loop with
its tail update (`a = mhi` or `b = mlo`) is written as tail recursion; one
fuel unit is spent per loop iteration or recursion level, and every such
step strictly shrinks the range, so the fuel supplied by `goSortSlice`
never runs out. -/
def quickSortFuel [Inhabited V] (less : V → V → Bool) :
    Nat → List V → Nat → Nat → Nat → List V
  | 0, l, _, _, _ => l
  | fuel + 1, l, a, b, maxDepth =>
    if b - a > 12 then
      if maxDepth = 0 then heapSortGo less l a b
      else
        -- dp = (l', mlo, mhi)
        let dp := doPivot less l a b
        if dp.2.1 - a < b - dp.2.2 then
          quickSortFuel less fuel (quickSortFuel less fuel dp.1 a dp.2.1 (maxDepth - 1))
            dp.2.2 b (maxDepth - 1)
        else
          quickSortFuel less fuel (quickSortFuel less fuel dp.1 dp.2.2 b (maxDepth - 1))
            a dp.2.1 (maxDepth - 1)
    else
      if b - a > 1 then insertionSortGo less (shellLoop less (b + 1) l (a + 6) b) a b
      else l

/-- sort.Slice from the Go standard library: sort the whole slice with the
given less function (not guaranteed to be stable). -/
def goSortSlice [Inhabited V] (less : V → V → Bool) (l : List V) : List V :=
  quickSortFuel less (l.length + 13) l 0 l.length (goMaxDepth l.length)

/-- Finisher.Sort from the source: the generator's fresh `sortedIter`/`done`
state drains the upstream on the first pull, sorts it with `sort.Slice`,
and replays the sorted sequence; at the sequence level the generated
transform sends the upstream sequence to its `sort.Slice` image. -/
def Finisher.Sort [Inhabited V] (fin : Finisher V) (less : V → V → Bool) : Finisher V :=
  fin.Transform (fun _ => fun l => goSortSlice less l)

/-- Finisher.ReverseSort from the source: Sort with the negated
comparator. -/
def Finisher.ReverseSort [Inhabited V] (fin : Finisher V) (less : V → V → Bool) :
    Finisher V :=
  fin.Sort (fun element1 element2 => !less element1 element2)

/-!
## Go reflection and FlattenArraySlice (iter package)

The elements flowing through a pipeline are Go `interface{}` values, and
`iter.FlattenArraySlice` inspects them with the `reflect` package: a value
whose `Kind` is `Array` or `Slice` is recursively flattened into its
elements (any number of dimensions), every other value is kept as is.  The
reflective view of the element type `V` is captured by the `GoReflect`
class: `asSlice v = some elems` models a value of array/slice kind with
the given elements, `asSlice v = none` every other value.  `rank` is a
strict upper-bound witness on the nesting depth, used to drive the
recursion of the flatten by structural fuel; `rank_lt` states that the
elements of an array/slice value rank strictly below it, which is what
makes any fuel above every element's rank reach the fully flattened
result (`flattenFuel_congr` below). -/
class GoReflect (V : Type u) where
  asSlice : V → Option (List V)
  rank : V → Nat
  rank_lt : ∀ v l, asSlice v = some l → ∀ x ∈ l, rank x < rank v

/-- Element types whose values are never arrays or slices (Go `int`,
`string`, struct values, ...): reflection finds no array/slice kind.  Any
type models such elements unless a more specific `GoReflect` instance says
otherwise. -/
instance (priority := low) instGoReflectScalar (V : Type u) : GoReflect V where
  asSlice _ := none
  rank _ := 0
  rank_lt := by intro v l h; cases h

/-- A Go `interface{}` value that is either a non-slice value (`prim`) or
an array/slice of further such values (`arr`), the shape
`iter.FlattenArraySlice` is documented to flatten ("a mixture of values
and arrays/slices"). -/
inductive GoValue (V : Type u) where
  | prim : V → GoValue V
  | arr : List (GoValue V) → GoValue V

mutual

/-- Nesting depth of a `GoValue`: 0 for a plain value, one more than the
deepest element for an array/slice. -/
def GoValue.rank : GoValue V → Nat
  | .prim _ => 0
  | .arr l => GoValue.rankList l + 1

/-- Deepest nesting depth among a list of `GoValue`s. -/
def GoValue.rankList : List (GoValue V) → Nat
  | [] => 0
  | x :: xs => max x.rank (GoValue.rankList xs)

end

theorem GoValue.rank_lt_of_mem (m : List (GoValue V)) (x : GoValue V) (hx : x ∈ m) :
    GoValue.rank x < GoValue.rank (GoValue.arr m) := by
  induction m with
  | nil => cases hx
  | cons y ys ih =>
    rcases List.mem_cons.mp hx with rfl | hmem
    · simp only [GoValue.rank, GoValue.rankList]
      omega
    · have := ih hmem
      simp only [GoValue.rank, GoValue.rankList] at this ⊢
      omega

/-- Reflection on `GoValue`: `arr` values have array/slice kind, `prim`
values do not. -/
instance (V : Type u) : GoReflect (GoValue V) where
  asSlice v :=
    match v with
    | .prim _ => none
    | .arr l => some l
  rank := GoValue.rank
  rank_lt := by
    intro v l h x hx
    cases v with
    | prim w => cases h
    | arr m =>
      simp only [Option.some.injEq] at h
      subst h
      exact GoValue.rank_lt_of_mem m x hx

/-- Recursion of `iter.FlattenArraySlice`, driven by structural fuel: each
element of array/slice kind is recursively replaced by the flattening of
its elements, every other element is appended as is.  One fuel unit is
spent per nesting level, and by `GoReflect.rank_lt` the elements met after
`k` descents rank at least `k` below the starting elements, so any fuel
above every element's rank computes the full recursion
(`flattenFuel_congr`). -/
def flattenFuel [GoReflect V] : Nat → List V → List V
  | 0, l => l
  | fuel + 1, l =>
    l.flatMap fun x =>
      match GoReflect.asSlice x with
      | none => [x]
      | some inner => flattenFuel fuel inner

/-- iter.FlattenArraySlice from the source, at the call shape of
`doParallel` (`splitData [][]interface{}`): the outer value is a slice of
rows and each row is a slice, so the reflective recursion descends through
both and then flattens every remaining element recursively; the fuel is
one more than the largest element rank, which the recursion never
exhausts. -/
def FlattenArraySlice [GoReflect V] (rows : List (List V)) : List V :=
  let elems := rows.flatten
  flattenFuel ((elems.map GoReflect.rank).foldr max 0 + 1) elems

/-!
## Parallel executor and terminals (stream package)
-/

/-- doParallel from the source: with no Stream transform the drained source
is used as is; otherwise the drained source is partitioned (column-major for
a goroutine count, row-major for an items-per-goroutine count, with the
default of 50 when the configured number is 0), each partition is
transformed by its own goroutine into its own slot of `splitData`, the join
barrier awaits them all, and the slots are merged with
`iter.FlattenArraySlice`, which concatenates them in partition order and
recursively flattens any element that is itself an array or slice.
Slot `i` holds the transform of partition `i` regardless of completion
order, so the post-join contents are `splitData.map t`.  The Finisher's
generated transform is then applied serially.  The partition calls cannot
return the `cols`/`rows = 0` error because `n > 0` by construction. -/
def doParallel [GoReflect V] (source : List V) (transform : Option (List V → List V))
    (generator : Option (Unit → List V → List V)) (numItems : Nat)
    (flag : ParallelFlags) : List V :=
  let n := if 0 < numItems then numItems else DefaultNumberOfParallelItems
  let flatData :=
    match transform with
    | none => source
    | some t =>
      let splitData :=
        match flag with
        | .NumberOfGoroutines =>
          match Iter.SplitIntoColumns n source with
          | .ok s => s
          | .error _ => []
        | .NumberOfItemsPerGoroutine =>
          match Iter.SplitIntoRows n source with
          | .ok s => s
          | .error _ => []
      FlattenArraySlice (splitData.map t)
  match generator with
  | none => flatData
  | some g => g () flatData

/-- Finisher.Iter from the source: with a ParallelConfig, collect via
doParallel; otherwise apply the Stream transform (if any) and then the
freshly generated Finisher transform (if any), serially. -/
def Finisher.Iter [GoReflect V] (fin : Finisher V) (source : List V)
    (pc : Option ParallelConfig) : List V :=
  match pc with
  | some pconf =>
    doParallel source fin.stream.transform fin.generator pconf.NumberOfItems pconf.Flags
  | none =>
    let it :=
      match fin.stream.transform with
      | none => source
      | some t => t source
    match fin.generator with
    | none => it
    | some g => g () it

/-- Finisher.ToSlice from the source: iterate the terminal Iter to
completion, appending each element (the produced sequence itself). -/
def Finisher.ToSlice [GoReflect V] (fin : Finisher V) (source : List V)
    (pc : Option ParallelConfig) : List V :=
  fin.Iter source pc

/-- Finisher.First from the source: the first element of the terminal Iter,
if any. -/
def Finisher.First [GoReflect V] (fin : Finisher V) (source : List V)
    (pc : Option ParallelConfig) : Option V :=
  (fin.Iter source pc).head?

/-- Two terminal invocations of one Finisher value on two different sources:
each invocation re-runs `Finisher.Iter`, which re-invokes the composed
generator. -/
def Finisher.IterTwice [GoReflect V] (fin : Finisher V) (s1 s2 : List V) :
    List V × List V :=
  (fin.Iter s1 none, fin.Iter s2 none)

theorem skipLoop_eq (n : Nat) (l : List V) :
    skipLoop n l = if l.length < n then none else some (l.drop n) := by
  induction n generalizing l with
  | zero => simp [skipLoop]
  | succ n ih =>
    cases l with
    | nil => simp [skipLoop]
    | cons x xs => simpa [skipLoop, Nat.succ_lt_succ_iff] using ih xs

theorem skipGo_drop (n : Nat) (l : List V) : skipGo n l = l.drop n := by
  rw [skipGo, skipLoop_eq]
  by_cases h : l.length < n
  · rw [if_pos h]
    exact (List.drop_eq_nil_of_le (by omega)).symm
  · rw [if_neg h]

theorem chunkRowsLoop_flatten (c : Nat) :
    ∀ (fuel : Nat) (l : List V), l.length < fuel → (chunkRowsLoop c fuel l).flatten = l := by
  intro fuel
  induction fuel with
  | zero => intro l h; omega
  | succ fuel ih =>
    intro l h
    cases l with
    | nil => simp [chunkRowsLoop]
    | cons x xs =>
      simp only [chunkRowsLoop, List.flatten_cons]
      rw [ih (xs.drop c) (by simp only [List.length_drop]; simp at h; omega)]
      simp [List.take_append_drop]

theorem chunkRows_flatten (c : Nat) (l : List V) : (chunkRows c l).flatten = l :=
  chunkRowsLoop_flatten c (l.length + 1) l (Nat.lt_succ_self _)

theorem colsLoop_flatten (nI : Nat) :
    ∀ (nR r : Nat) (l : List V),
      (colsLoop nR nI r l).flatten = l.take (nR * nI + min r nR) := by
  intro nR
  induction nR with
  | zero => intro r l; simp [colsLoop]
  | succ n ih =>
    intro r l
    have hmul : (n + 1) * nI = n * nI + nI := by ring
    rcases r with _ | s
    · have hstep : colsLoop (n + 1) nI 0 l = l.take nI :: colsLoop n nI 0 (l.drop nI) := by
        simp [colsLoop]
      rw [hstep]
      simp only [List.flatten_cons, ih, ← List.take_add]
      congr 1
      omega
    · have hstep : colsLoop (n + 1) nI (s + 1) l =
          l.take (nI + 1) :: colsLoop n nI s (l.drop (nI + 1)) := by
        simp [colsLoop]
      rw [hstep]
      simp only [List.flatten_cons, ih, ← List.take_add]
      congr 1
      omega

theorem colsLoop_lengths :
    ∀ (nR nI r : Nat) (l : List V), r ≤ nR → l.length = nR * nI + r →
      (colsLoop nR nI r l).map List.length =
        List.replicate r (nI + 1) ++ List.replicate (nR - r) nI := by
  intro nR
  induction nR with
  | zero =>
    intro nI r l hr _
    interval_cases r
    simp [colsLoop]
  | succ n ih =>
    intro nI r l hr hlen
    have hmul : (n + 1) * nI = n * nI + nI := by ring
    rcases r with _ | s
    · have hstep : colsLoop (n + 1) nI 0 l = l.take nI :: colsLoop n nI 0 (l.drop nI) := by
        simp [colsLoop]
      rw [hstep]
      have h1 : (l.take nI).length = nI := by
        simp only [List.length_take]
        omega
      have h2 : (l.drop nI).length = n * nI + 0 := by
        simp only [List.length_drop]
        omega
      rw [List.map_cons, h1, ih nI 0 (l.drop nI) (by omega) h2]
      simp [List.replicate_succ]
    · have hstep : colsLoop (n + 1) nI (s + 1) l =
          l.take (nI + 1) :: colsLoop n nI s (l.drop (nI + 1)) := by
        simp [colsLoop]
      rw [hstep]
      have h1 : (l.take (nI + 1)).length = nI + 1 := by
        simp only [List.length_take]
        omega
      have h2 : (l.drop (nI + 1)).length = n * nI + s := by
        simp only [List.length_drop]
        omega
      rw [List.map_cons, h1, ih nI s (l.drop (nI + 1)) (by omega) h2]
      have hns : n + 1 - (s + 1) = n - s := by omega
      rw [hns, List.replicate_succ, List.cons_append]

theorem colsLoop_singletons :
    ∀ (l : List V), colsLoop l.length 1 0 l = l.map (fun x => [x]) := by
  intro l
  induction l with
  | nil => simp [colsLoop]
  | cons x xs ih => simpa [colsLoop] using ih

theorem splitIntoRows_ok (cols : Nat) (l : List V) (h : 0 < cols) :
    ∃ parts, Iter.SplitIntoRows cols l = .ok parts ∧ parts.flatten = l := by
  rcases cols with _ | c
  · omega
  · exact ⟨chunkRows c l, rfl, chunkRows_flatten c l⟩

theorem splitIntoColumns_ok (rows : Nat) (l : List V) (h : 0 < rows) :
    ∃ parts, Iter.SplitIntoColumns rows l = .ok parts ∧ parts.flatten = l ∧
      (rows ≤ l.length →
        parts.map List.length =
          List.replicate (l.length % rows) (l.length / rows + 1) ++
            List.replicate (rows - l.length % rows) (l.length / rows)) ∧
      (l.length < rows → parts = l.map (fun x => [x])) := by
  rw [Iter.SplitIntoColumns]
  rw [if_neg (by omega)]
  by_cases hlt : l.length < rows
  · rw [if_pos hlt]
    refine ⟨_, rfl, ?_, fun hle => by omega, fun _ => colsLoop_singletons l⟩
    rw [colsLoop_flatten]
    simp
  · rw [if_neg hlt]
    refine ⟨_, rfl, ?_, fun _ => ?_, fun hc => absurd hc hlt⟩
    · rw [colsLoop_flatten]
      have hmod : l.length % rows < rows := Nat.mod_lt _ h
      have : rows * (l.length / rows) + l.length % rows = l.length :=
        Nat.div_add_mod l.length rows
      have : rows * (l.length / rows) + min (l.length % rows) rows = l.length := by
        omega
      rw [Nat.mul_comm] at this ⊢
      rw [this, List.take_length]
    · exact colsLoop_lengths rows (l.length / rows) (l.length % rows) l
        (le_of_lt (Nat.mod_lt _ h))
        (by have := Nat.div_add_mod l.length rows; omega)

/-!
## Lemmas about transforms that distribute over append
-/

/-- The fuel of `flattenFuel` is irrelevant above the element ranks: any
two sufficient fuels compute the same (fully flattened) list, so the fuel
chosen by `FlattenArraySlice` realises the unbounded recursion of the Go
function. -/
theorem flattenFuel_congr [GoReflect V] :
    ∀ (f1 f2 : Nat) (l : List V), (∀ x ∈ l, GoReflect.rank x < f1) →
      (∀ x ∈ l, GoReflect.rank x < f2) → flattenFuel f1 l = flattenFuel f2 l := by
  intro f1
  induction f1 with
  | zero =>
    intro f2 l h1 _
    cases l with
    | nil => cases f2 <;> rfl
    | cons x xs => exact absurd (h1 x (List.mem_cons_self _ _)) (by omega)
  | succ n ih =>
    intro f2 l h1 h2
    cases f2 with
    | zero =>
      cases l with
      | nil => rfl
      | cons x xs => exact absurd (h2 x (List.mem_cons_self _ _)) (by omega)
    | succ m =>
      show l.flatMap _ = l.flatMap _
      induction l with
      | nil => rfl
      | cons x xs ihl =>
        rw [List.flatMap_cons, List.flatMap_cons]
        have htail := ihl (fun y hy => h1 y (List.mem_cons_of_mem _ hy))
          (fun y hy => h2 y (List.mem_cons_of_mem _ hy))
        rw [htail]
        congr 1
        cases hx : GoReflect.asSlice x with
        | none => rfl
        | some inner =>
          have hx1 := h1 x (List.mem_cons_self _ _)
          have hx2 := h2 x (List.mem_cons_self _ _)
          exact ih m inner
            (fun y hy => by have := GoReflect.rank_lt x inner hx y hy; omega)
            (fun y hy => by have := GoReflect.rank_lt x inner hx y hy; omega)

/-- Claim C7: Finisher.Skip(n) discards the first `n` upstream elements and
emits the remainder in order; with fewer than `n` upstream elements the
result is empty and no fault occurs.  In particular skip 2 over [1,2,3]
yields [3] and skip 2 over [1] yields []. -/
theorem C7_skip_discards_first_n :
    (∀ (V : Type) (n : Nat) (l : List V),
      skipGo n l = List.drop n l ∧ (l.length < n → skipGo n l = [])) ∧
    skipGo 2 [1, 2, 3] = ([3] : List Nat) ∧ skipGo 2 [1] = ([] : List Nat) := by
  refine ⟨fun V n l => ⟨skipGo_drop n l, fun hlt => ?_⟩, by decide, by decide⟩
  rw [skipGo_drop]
  exact List.drop_eq_nil_of_le (by omega)

/-- Witness for C7 at a concrete input with the short-input hypothesis
discharged. -/
theorem C7_witness : (([1] : List Nat).length < 2) ∧ skipGo 2 [1] = ([] : List Nat) :=
  ⟨by decide, (C7_skip_discards_first_n.1 Nat 2 [1]).2 (by decide)⟩

/-- Claim C5: for every drained sequence, SplitIntoRows(cols) and
SplitIntoColumns(rows) produce contiguous partitions whose concatenation in
partition order is the original sequence; SplitIntoColumns gives the first
`n % rows` partitions `n / rows + 1` elements and the rest `n / rows`,
degrading to `n` singleton partitions when `n < rows`. -/
theorem C5_partition_totals (V : Type) (cols rows : Nat) (l : List V)
    (hc : 0 < cols) (hr : 0 < rows) :
    (∀ parts, Iter.SplitIntoRows cols l = .ok parts → parts.flatten = l) ∧
    (∀ parts, Iter.SplitIntoColumns rows l = .ok parts →
      parts.flatten = l ∧
      (rows ≤ l.length →
        parts.map List.length =
          List.replicate (l.length % rows) (l.length / rows + 1) ++
            List.replicate (rows - l.length % rows) (l.length / rows)) ∧
      (l.length < rows → parts = l.map (fun x => [x]))) := by
  constructor
  · intro parts hok
    obtain ⟨parts', hok', hflat⟩ := splitIntoRows_ok cols l hc
    rw [hok] at hok'
    cases hok'
    exact hflat
  · intro parts hok
    obtain ⟨parts', hok', hflat, hlen, hsing⟩ := splitIntoColumns_ok rows l hr
    rw [hok] at hok'
    cases hok'
    exact ⟨hflat, hlen, hsing⟩

/-- Witness for C5 at a concrete partition of [1,2,3]. -/
theorem C5_witness :
    (0 < 2) ∧ ([[1, 2], [3]] : List (List Nat)).flatten = [1, 2, 3] :=
  ⟨by decide,
    (C5_partition_totals Nat 2 2 [1, 2, 3] (by decide) (by decide)).1
      [[1, 2], [3]] (by rfl)⟩

/-- Counter-example to claim C1 as stated: the merge step of doParallel is
`iter.FlattenArraySlice`, which recursively flattens any element that is
itself an array or slice, while the serial path keeps such elements whole.
Over the single-element source `[[]int{1,2}]` (one element that is a
two-element slice), with the identity map as Stream stage and one
goroutine, the parallel path yields the two inner values while the serial
path yields the one slice element, so the two paths differ. -/
theorem C1_counterexample :
    (Finisher.Iter ⟨⟨some (mapGo (fun x : GoValue Nat => x))⟩, none⟩
        [GoValue.arr [GoValue.prim 1, GoValue.prim 2]] (some ⟨1, .NumberOfGoroutines⟩) =
      [GoValue.prim 1, GoValue.prim 2]) ∧
    (Finisher.Iter ⟨⟨some (mapGo (fun x : GoValue Nat => x))⟩, none⟩
        [GoValue.arr [GoValue.prim 1, GoValue.prim 2]] none =
      [GoValue.arr [GoValue.prim 1, GoValue.prim 2]]) ∧
    Finisher.Iter ⟨⟨some (mapGo (fun x : GoValue Nat => x))⟩, none⟩
        [GoValue.arr [GoValue.prim 1, GoValue.prim 2]] (some ⟨1, .NumberOfGoroutines⟩) ≠
      Finisher.Iter ⟨⟨some (mapGo (fun x : GoValue Nat => x))⟩, none⟩
        [GoValue.arr [GoValue.prim 1, GoValue.prim 2]] none := by
  refine ⟨rfl, rfl, fun h => ?_⟩
  have h2 : ([GoValue.prim 1, GoValue.prim 2] : List (GoValue Nat)) =
      [GoValue.arr [GoValue.prim 1, GoValue.prim 2]] := h
  simp at h2

/-- Claim C6: invoking the same Distinct-composed Finisher as a terminal
twice with two different inputs never leaks seen-state between the calls:
the second call's result equals what a fresh identical Finisher produces on
the second input, namely the distinct filter run from a fresh empty seen
set. -/
theorem C6_distinct_no_state_leak (V : Type) [DecidableEq V] (s1 s2 : List V) :
    ((Stream.New.AndThen.Distinct (V := V)).IterTwice s1 s2).2 =
      (Stream.New.AndThen.Distinct (V := V)).Iter s2 none ∧
    ((Stream.New.AndThen.Distinct (V := V)).IterTwice s1 s2).2 = distinctSeen [] s2 := by
  exact ⟨rfl, rfl⟩

/-- Claim C4: the composed pipeline map(x*2), map(x-3), filter(x ≤ 7), then
skip(2), distinct, reverseSort, limit(3) over [1,2,1,3,4,3,5,6,7,7,8,9,10]
has first() = 7 and collects to [7,5,3]. -/
theorem C4_pipeline_scenario :
    ((((((Stream.New.Map (fun x : Int => x * 2)).Map (fun x => x - 3)).Filter
        (fun x => decide (x ≤ 7))).AndThen.Skip 2).Distinct.ReverseSort
        (fun x y => decide (x < y))).Limit 3).First
      [1, 2, 1, 3, 4, 3, 5, 6, 7, 7, 8, 9, 10] none = some 7 ∧
    ((((((Stream.New.Map (fun x : Int => x * 2)).Map (fun x => x - 3)).Filter
        (fun x => decide (x ≤ 7))).AndThen.Skip 2).Distinct.ReverseSort
        (fun x y => decide (x < y))).Limit 3).ToSlice
      [1, 2, 1, 3, 4, 3, 5, 6, 7, 7, 8, 9, 10] none = [7, 5, 3] := by
  constructor <;> rfl

/-!
## Claims C2, C8, C9, C10 — the Iter protocol
-/

/-- Claim C2: after advance caches a freshly produced value, read returns it
exactly once: a second read without an intervening advance faults with the
usage error, and a read on an exhausted iterator faults with the exhausted
error; in both failure cases the iterator state is unchanged. -/
theorem C2_advance_then_read (σ V : Type) (step : σ → Option (V × σ)) (s s' : σ) (v : V)
    (hstep : step s = some (v, s')) :
    ((Iter.NewIter s : Iter σ V).Next step =
      (true, { src := some s', nextCalled := true, value := some v, buffer := [] })) ∧
    (({ src := some s', nextCalled := true, value := some v, buffer := [] } :
        Iter σ V).Value =
      (.ok (some v),
        { src := some s', nextCalled := false, value := some v, buffer := [] })) ∧
    (({ src := some s', nextCalled := false, value := some v, buffer := [] } :
        Iter σ V).Value =
      (.error ErrValueNextFirst,
        { src := some s', nextCalled := false, value := some v, buffer := [] })) ∧
    (∀ it : Iter σ V, it.src = none → it.Value = (.error ErrValueExhaustedIter, it)) := by
  refine ⟨?_, rfl, rfl, ?_⟩
  · simp [Iter.NewIter, Iter.Next, hstep]
  · intro it h
    obtain ⟨src, nc, val, buf⟩ := it
    cases h
    rfl

/-- Witness for C2 over a one-element list producer. -/
theorem C2_witness :
    listStep [(42 : Nat)] = some (42, ([] : List Nat)) ∧
    (({ src := some ([] : List Nat), nextCalled := true, value := some 42,
        buffer := [] } : Iter (List Nat) Nat).Value =
      (.ok (some 42),
        { src := some [], nextCalled := false, value := some 42, buffer := [] })) :=
  ⟨rfl, (C2_advance_then_read (List Nat) Nat listStep [42] [] 42 rfl).2.1⟩

/-- Claim C8: the push-back buffer is LIFO: on any non-exhausted iterator,
unreading v1, v2, v3 in that order succeeds, and three Next/Value reads then
yield v3, v2, v1 from the buffer while the producer state is untouched;
Unread on an iterator exhausted by producer drain faults. -/
theorem C8_unread_lifo (σ V : Type) (step : σ → Option (V × σ)) (it : Iter σ V) (s : σ)
    (h : it.src = some s) (v1 v2 v3 : V) :
    (it.Unread v1 = (.ok (), { it with buffer := v1 :: it.buffer, nextCalled := false })) ∧
    (({ it with buffer := v1 :: it.buffer, nextCalled := false } : Iter σ V).Unread v2 =
      (.ok (), { it with buffer := v2 :: v1 :: it.buffer, nextCalled := false })) ∧
    (({ it with buffer := v2 :: v1 :: it.buffer, nextCalled := false } : Iter σ V).Unread v3 =
      (.ok (), { it with buffer := v3 :: v2 :: v1 :: it.buffer, nextCalled := false })) ∧
    (({ it with buffer := v3 :: v2 :: v1 :: it.buffer, nextCalled := false } :
        Iter σ V).NextValue step =
      (.ok (some v3),
        { src := some s, nextCalled := false, value := some v3,
          buffer := v2 :: v1 :: it.buffer })) ∧
    (({ src := some s, nextCalled := false, value := some v3,
        buffer := v2 :: v1 :: it.buffer } : Iter σ V).NextValue step =
      (.ok (some v2),
        { src := some s, nextCalled := false, value := some v2,
          buffer := v1 :: it.buffer })) ∧
    (({ src := some s, nextCalled := false, value := some v2,
        buffer := v1 :: it.buffer } : Iter σ V).NextValue step =
      (.ok (some v1),
        { src := some s, nextCalled := false, value := some v1,
          buffer := it.buffer })) ∧
    (∀ itx : Iter σ V, itx.src = none → ∀ w,
      itx.Unread w = (.error ErrUnreadExhaustedIter, itx)) := by
  obtain ⟨src, nc, val, buf⟩ := it
  cases h
  refine ⟨rfl, rfl, rfl, rfl, rfl, rfl, ?_⟩
  intro itx hx w
  obtain ⟨sx, ncx, vx, bx⟩ := itx
  cases hx
  rfl

/-- Witness for C8 on a concrete iterator over [9]. -/
theorem C8_witness :
    (Iter.NewIter [(9 : Nat)] : Iter (List Nat) Nat).Unread 1 =
      (.ok (), { src := some [9], nextCalled := false, value := none, buffer := [1] }) ∧
    (({ src := some [(9 : Nat)], nextCalled := false, value := some 2,
        buffer := [1] } : Iter (List Nat) Nat).NextValue listStep =
      (.ok (some 1),
        { src := some [9], nextCalled := false, value := some 1, buffer := [] })) :=
  ⟨(C8_unread_lifo (List Nat) Nat listStep (Iter.NewIter [9]) [9] rfl 1 2 3).1,
    (C8_unread_lifo (List Nat) Nat listStep
      { src := some [9], nextCalled := false, value := some 2, buffer := [] } [9]
      rfl 1 2 3).2.2.2.2.2.1⟩

theorem applyOp_exhausted_inv (step : σ → Option (V × σ)) (it : Iter σ V) (op : IterOp V)
    (h : it.src = none → it.buffer = []) :
    (it.applyOp step op).src = none → (it.applyOp step op).buffer = [] := by
  obtain ⟨src, nc, val, buf⟩ := it
  cases op with
  | next =>
    cases src with
    | none => simpa [Iter.applyOp, Iter.Next] using h
    | some s =>
      cases nc with
      | true => intro h2; simp [Iter.applyOp, Iter.Next] at h2
      | false =>
        cases buf with
        | cons b rest => intro h2; simp [Iter.applyOp, Iter.Next] at h2
        | nil =>
          cases hstep : step s with
          | some vs => intro h2; simp [Iter.applyOp, Iter.Next, hstep] at h2
          | none => intro _; simp [Iter.applyOp, Iter.Next, hstep]
  | value =>
    cases src with
    | none => simpa [Iter.applyOp, Iter.Value] using h
    | some s =>
      cases nc with
      | true => intro h2; simp [Iter.applyOp, Iter.Value] at h2
      | false => intro h2; simp [Iter.applyOp, Iter.Value] at h2
  | unread v =>
    cases src with
    | none => simpa [Iter.applyOp, Iter.Unread] using h
    | some s => intro h2; simp [Iter.applyOp, Iter.Unread] at h2

theorem runOps_exhausted_inv (step : σ → Option (V × σ)) :
    ∀ (ops : List (IterOp V)) (it : Iter σ V), (it.src = none → it.buffer = []) →
      ((Iter.runOps step it ops).src = none → (Iter.runOps step it ops).buffer = []) := by
  intro ops
  induction ops with
  | nil => intro it h; exact h
  | cons op ops ih =>
    intro it h
    exact ih (it.applyOp step op) (applyOp_exhausted_inv step it op h)

theorem exhausted_stuck (step : σ → Option (V × σ)) (it : Iter σ V) (h : it.src = none) :
    it.Next step = (false, it) ∧ it.Value = (.error ErrValueExhaustedIter, it) ∧
    (∀ w, it.Unread w = (.error ErrUnreadExhaustedIter, it)) ∧
    (∀ more, Iter.runOps step it more = it) := by
  obtain ⟨src, nc, val, buf⟩ := it
  cases h
  refine ⟨rfl, rfl, fun w => rfl, ?_⟩
  intro more
  induction more with
  | nil => rfl
  | cons op ops ih =>
    have hop : Iter.applyOp step
        { src := none, nextCalled := nc, value := val, buffer := buf } op =
        { src := none, nextCalled := nc, value := val, buffer := buf } := by
      cases op <;> rfl
    show Iter.runOps step _ ops = _
    rw [hop]
    exact ih

/-- Claim C9: the Iter state invariant: from a fresh iterator, whenever the
producer has been dropped (exhaustion), the push-back buffer is empty; and
on an exhausted iterator Next keeps returning false without touching the
state (the producer is gone, never invoked again), Value and Unread fault,
and any further operation sequence leaves the state unchanged. -/
theorem C9_exhaustion_invariant (σ V : Type) (step : σ → Option (V × σ)) (s0 : σ)
    (ops : List (IterOp V)) :
    ((Iter.runOps step (Iter.NewIter s0) ops).src = none →
      (Iter.runOps step (Iter.NewIter s0) ops).buffer = []) ∧
    (∀ it : Iter σ V, it.src = none →
      it.Next step = (false, it) ∧ it.Value = (.error ErrValueExhaustedIter, it) ∧
      (∀ w, it.Unread w = (.error ErrUnreadExhaustedIter, it)) ∧
      (∀ more, Iter.runOps step it more = it)) :=
  ⟨runOps_exhausted_inv step ops (Iter.NewIter s0) (fun hcontra => nomatch hcontra),
    fun it h => exhausted_stuck step it h⟩

/-- Witness for C9: draining an empty producer exhausts the iterator with an
empty buffer. -/
theorem C9_witness :
    (Iter.runOps listStep (Iter.NewIter ([] : List Nat)) [IterOp.next]).buffer = [] :=
  (C9_exhaustion_invariant (List Nat) Nat listStep [] [IterOp.next]).1 rfl

theorem avoids_value_output (step : σ → Option (V × σ)) {v0 : V} {it : Iter σ V}
    (h : it.AvoidsVal step v0) :
    ∀ x, (it.Value).1 = .ok x → x ≠ some v0 := by
  obtain ⟨h1, h2, h3⟩ := h
  obtain ⟨src, nc, val, buf⟩ := it
  cases src with
  | none => intro x hx; simp [Iter.Value] at hx
  | some s =>
    cases nc with
    | true =>
      intro x hx
      simp [Iter.Value] at hx
      rcases hx with rfl
      exact h1 rfl
    | false => intro x hx; simp [Iter.Value] at hx

theorem avoids_applyOp (step : σ → Option (V × σ)) {v0 : V} {it : Iter σ V}
    (h : it.AvoidsVal step v0) :
    ∀ op : IterOp V, (∀ u, op = .unread u → u ≠ v0) →
      (it.applyOp step op).AvoidsVal step v0 := by
  obtain ⟨h1, h2, h3⟩ := h
  obtain ⟨src, nc, val, buf⟩ := it
  simp only at h1 h2 h3
  intro op hop
  cases op with
  | next =>
    cases src with
    | none => exact ⟨h1, h2, h3⟩
    | some s =>
      cases nc with
      | true => exact ⟨h1, h2, h3⟩
      | false =>
        cases buf with
        | cons b rest =>
          simp only [Iter.applyOp, Iter.Next]
          refine ⟨fun _ hb => ?_, fun hmem => h2 (List.mem_cons_of_mem b hmem), ?_⟩
          · injection hb with hb'
            exact h2 (by rw [← hb']; exact List.mem_cons_self _ _)
          · intro s'' hs'' k
            have he : s = s'' := by injection hs''
            rw [← he]
            exact h3 s rfl k
        | nil =>
          cases hstep : step s with
          | none =>
            simp only [Iter.applyOp, Iter.Next, hstep]
            exact ⟨h1, h2, fun s'' hs'' => nomatch hs''⟩
          | some vs =>
            obtain ⟨v, s'⟩ := vs
            simp only [Iter.applyOp, Iter.Next, hstep]
            have hv1 : v0 ∉ produceN step s 1 := h3 s rfl 1
            rw [show produceN step s 1 = [v] by simp [produceN, hstep]] at hv1
            refine ⟨fun _ hv => ?_, h2, fun s'' hs'' k => ?_⟩
            · injection hv with hv'
              exact hv1 (List.mem_singleton.mpr hv'.symm)
            · have he : s' = s'' := by injection hs''
              rw [← he]
              intro hmem
              have hk := h3 s rfl (k + 1)
              rw [show produceN step s (k + 1) = v :: produceN step s' k by
                simp [produceN, hstep]] at hk
              exact hk (List.mem_cons_of_mem v hmem)
  | value =>
    cases src with
    | none => exact ⟨h1, h2, h3⟩
    | some s =>
      cases nc with
      | true =>
        simp only [Iter.applyOp, Iter.Value]
        exact ⟨fun hcontra => by simp at hcontra, h2, h3⟩
      | false => exact ⟨h1, h2, h3⟩
  | unread u =>
    cases src with
    | none => exact ⟨h1, h2, h3⟩
    | some s =>
      simp only [Iter.applyOp, Iter.Unread]
      refine ⟨fun hcontra => by simp at hcontra, ?_, h3⟩
      intro hmem
      rcases List.mem_cons.mp hmem with hu | hmem'
      · exact hop u rfl hu.symm
      · exact h2 hmem'

theorem runOuts_avoids (step : σ → Option (V × σ)) (v0 : V) :
    ∀ (ops : List (IterOp V)) (it : Iter σ V), it.AvoidsVal step v0 →
      (∀ u, IterOp.unread u ∈ ops → u ≠ v0) →
      some v0 ∉ Iter.runOuts step it ops := by
  intro ops
  induction ops with
  | nil => intro it _ _; simp [Iter.runOuts]
  | cons op ops ih =>
    intro it h hops
    cases op with
    | next =>
      exact ih _ (avoids_applyOp step h .next (fun u hu => nomatch hu))
        (fun u hu => hops u (List.mem_cons_of_mem _ hu))
    | value =>
      simp only [Iter.runOuts]
      intro hmem
      rcases List.mem_append.mp hmem with hm1 | hm2
      · cases hval : (it.Value).1 with
        | ok x =>
          rw [hval] at hm1
          simp only [List.mem_singleton] at hm1
          exact avoids_value_output step h x hval hm1.symm
        | error e =>
          rw [hval] at hm1
          simp at hm1
      · exact ih _ (avoids_applyOp step h .value (fun u hu => nomatch hu))
          (fun u hu => hops u (List.mem_cons_of_mem _ hu)) hm2
    | unread u =>
      exact ih _
        (avoids_applyOp step h (.unread u)
          (fun u' hu' => by cases hu'; exact hops u (List.mem_cons_self _ _)))
        (fun u' hu' => hops u' (List.mem_cons_of_mem _ hu'))

/-- Claim C10: if Next has returned true and Value has not yet consumed the
cached value, Unread(w) clears the pending-advance flag and discards that
cached value: Unread succeeds leaving the flag cleared, Value immediately
after faults, the next Next/Value pair yields w, and the cached value is
never returned by any later operation sequence (provided it occurs nowhere
else: not in the buffer, not among the producer's remaining values, and not
re-unread). -/
theorem C10_unread_discards_cached (σ V : Type) (step : σ → Option (V × σ))
    (it : Iter σ V) (s : σ) (v0 w : V)
    (hsrc : it.src = some s) (hnc : it.nextCalled = true) (hval : it.value = some v0)
    (hbuf : v0 ∉ it.buffer) (hprod : ∀ k, v0 ∉ produceN step s k) (hw : w ≠ v0)
    (ops : List (IterOp V)) (hops : ∀ u, IterOp.unread u ∈ ops → u ≠ v0) :
    it.Unread w = (.ok (), { it with buffer := w :: it.buffer, nextCalled := false }) ∧
    ({ it with buffer := w :: it.buffer, nextCalled := false } : Iter σ V).Value =
      (.error ErrValueNextFirst,
        { it with buffer := w :: it.buffer, nextCalled := false }) ∧
    (({ it with buffer := w :: it.buffer, nextCalled := false } :
        Iter σ V).NextValue step).1 = .ok (some w) ∧
    some v0 ∉ Iter.runOuts step
      { it with buffer := w :: it.buffer, nextCalled := false } ops := by
  obtain ⟨src, nc, val, buf⟩ := it
  cases hsrc
  cases hnc
  cases hval
  refine ⟨rfl, rfl, rfl, ?_⟩
  refine runOuts_avoids step v0 ops _ ?_ hops
  refine ⟨fun hcontra => by simp at hcontra, ?_, ?_⟩
  · intro hmem
    rcases List.mem_cons.mp hmem with hu | hmem'
    · exact hw hu.symm
    · exact hbuf hmem'
  · intro s'' hs'' k
    have he : s = s'' := by injection hs''
    rw [← he]
    exact hprod k

theorem produceN_listStep (k : Nat) :
    ∀ l : List V, produceN listStep l k = l.take k := by
  induction k with
  | zero => intro l; simp [produceN]
  | succ k ih =>
    intro l
    cases l with
    | nil => simp [produceN, listStep]
    | cons x xs => simp [produceN, listStep, ih]

/-- Witness for C10: a pending cached 99 is discarded by Unread 3 and never
shows up in the outputs of three subsequent Next/Value rounds. -/
theorem C10_witness :
    some 99 ∉ Iter.runOuts listStep
      ({ src := some [5], nextCalled := false, value := some 99, buffer := [3, 7] } :
        Iter (List Nat) Nat)
      [IterOp.next, IterOp.value, IterOp.next, IterOp.value, IterOp.next, IterOp.value] :=
  (C10_unread_discards_cached (List Nat) Nat listStep
    { src := some [5], nextCalled := true, value := some 99, buffer := [7] } [5] 99 3
    rfl rfl rfl (by decide)
    (fun k => by
      rw [produceN_listStep]
      intro hm
      exact (by decide : (99 : Nat) ∉ [5]) (List.take_subset k [5] hm))
    (by decide)
    [IterOp.next, IterOp.value, IterOp.next, IterOp.value, IterOp.next, IterOp.value]
    (fun u hu => by simp at hu)).2.2.2

/-!
## Permutation lemmas for the sort.Slice embedding

Every mutation in the embedded sort is a swap of two in-range slots, so
every phase returns a permutation of its input.
-/

theorem set_getD_self (l : List V) : ∀ (i : Nat) (d : V), l.set i (l.getD i d) = l := by
  induction l with
  | nil => intro i d; rfl
  | cons a t ih =>
    intro i d
    cases i with
    | zero => rfl
    | succ i =>
      show a :: t.set i ((a :: t).getD (i + 1) d) = a :: t
      rw [List.getD_cons_succ, ih]

end GoMicro
